import Mathlib

/-!
# Verification of the reSID-fp waveform generator (`src/vice/src/resid-fp/wave.h`)

This file gives a shallow embedding of the `WaveformGeneratorFP` class of
`wave.h` and proves properties of its `clock`, `clock_noise`, `synchronize`,
`outputN___` and `output` member functions.

Modelling conventions:
* Machine integers are `Nat`.  The registers `reg24`/`reg16`/`reg12`/`reg8`
  are typedefs for C unsigned integers (declared in `siddefs-fp.h`); the code
  masks values explicitly where a width matters (`accumulator &= 0xffffff`),
  and the only operation that can grow a register without a subsequent mask is
  the left shift of `shift_register`, which we reduce modulo `2 ^ 32`, the
  width of the underlying C `unsigned int`.
* The analog quantities (`float` fields `wave_zero`, `previous_dac`,
  `noise_output_cached_dac`, and the global tables `dac[12]` and
  `wftable[11][4096]`) are modelled over `ℚ`; the claims about them are
  structural (which terms are combined), not about rounding.
* The global tables `dac` and `wftable` are passed as explicit function
  arguments, and the non-owning `sync_source` / `sync_dest` pointers are
  modelled by passing the referenced oscillator's state explicitly.
-/

/-- The mutable state of one `WaveformGeneratorFP` instance (`wave.h`,
class body).  Field names follow the C++ members. -/
structure Osc where
  msb_rising : Bool
  accumulator : Nat
  shift_register : Nat
  noise_output_cached : Nat
  noise_overwrite_delay : Int
  freq : Nat
  pw : Nat
  waveform : Nat
  test : Bool
  ring_mod : Bool
  sync : Bool
  wave_zero : ℚ
  previous_dac : ℚ
  noise_output_cached_dac : ℚ
  deriving DecidableEq, Repr

/-- `WaveformGeneratorFP::outputN___` (`wave.h` lines 200-212): the 12-bit
noise word extracted from the shift register. -/
def outputN___ (shift_register : Nat) : Nat :=
  ((shift_register &&& 0x400000) >>> 11) |||
  ((shift_register &&& 0x100000) >>> 10) |||
  ((shift_register &&& 0x010000) >>> 7) |||
  ((shift_register &&& 0x002000) >>> 5) |||
  ((shift_register &&& 0x000800) >>> 4) |||
  ((shift_register &&& 0x000080) >>> 1) |||
  ((shift_register &&& 0x000010) <<< 1) |||
  ((shift_register &&& 0x000004) <<< 2)

/-- The DAC accumulation loop shared by `clock` and `clock_noise`
(`wave.h` lines 113-118 and 155-160): starting from `wave_zero`, add
`dac[i]` for every bit `i` set in the 12-bit word `w`. -/
def dacLoop (dac : Nat → ℚ) (w : Nat) (wave_zero : ℚ) : ℚ :=
  (List.range 12).foldl
    (fun acc i => if w &&& (1 <<< i) ≠ 0 then acc + dac i else acc) wave_zero

/-- The bit-clear mask applied when noise is combined with other waveforms
(`wave.h` line 151), written exactly as in the source. -/
def noiseClearMask : Nat :=
  0x7fffff ^^^ (1 <<< 22) ^^^ (1 <<< 20) ^^^ (1 <<< 16) ^^^ (1 <<< 13) ^^^
  (1 <<< 11) ^^^ (1 <<< 7) ^^^ (1 <<< 4) ^^^ (1 <<< 2)

/-- `WaveformGeneratorFP::clock_noise` (`wave.h` lines 139-161). -/
def clock_noise (dac : Nat → ℚ) (clk : Bool) (s : Osc) : Osc :=
  let sr1 :=
    if clk then
      ((s.shift_register <<< 1) |||
        (((s.shift_register >>> 22) ^^^ (s.shift_register >>> 17)) &&& 0x1)) % 2 ^ 32
    else s.shift_register
  let sr2 := if 8 < s.waveform then sr1 &&& noiseClearMask else sr1
  { s with
    shift_register := sr2,
    noise_output_cached := outputN___ sr2,
    noise_output_cached_dac := dacLoop dac (outputN___ sr2) s.wave_zero }

/-- `WaveformGeneratorFP::clock` (`wave.h` lines 104-137). -/
def clock (dac : Nat → ℚ) (s : Osc) : Osc :=
  if s.test then
    if s.noise_overwrite_delay ≠ 0 then
      if s.noise_overwrite_delay - 1 = 0 then
        let sr := s.shift_register ||| 0x7ffffc
        { s with
          noise_overwrite_delay := 0,
          shift_register := sr,
          noise_output_cached := outputN___ sr,
          noise_output_cached_dac := dacLoop dac (outputN___ sr) s.wave_zero }
      else { s with noise_overwrite_delay := s.noise_overwrite_delay - 1 }
    else s
  else
    let accumulator_prev := s.accumulator
    let acc2 := (s.accumulator + s.freq) &&& 0xffffff
    let s1 := { s with
      accumulator := acc2,
      msb_rising := (accumulator_prev &&& 0x800000 == 0) &&
                    (acc2 &&& 0x800000 != 0) }
    if (accumulator_prev &&& 0x080000 == 0) && (acc2 &&& 0x080000 != 0) then
      clock_noise dac true s1
    else s1

/-- Iterated clocking: `n` consecutive calls of `clock`. -/
def clockIter (dac : Nat → ℚ) (n : Nat) (s : Osc) : Osc :=
  (clock dac)^[n] s

/-- `WaveformGeneratorFP::synchronize` (`wave.h` lines 170-179), seen from
the side of the destination: `self` is the oscillator whose `synchronize`
runs, `source` is `self`'s sync source, and the returned state is the new
state of `self`'s sync destination `dest`. -/
def synchronize (self source dest : Osc) : Osc :=
  if self.msb_rising && dest.sync && !(self.sync && source.msb_rising) then
    { dest with accumulator := 0 }
  else dest

/-- The synchronize pass over two mutually-synced oscillators: `a`'s sync
source and destination are both `b`, and vice versa (a two-oscillator ring).
`a.synchronize()` runs first, then `b.synchronize()`; the first call can only
modify `b`, so `b`'s pass reads the updated `b` as its own state. -/
def synchronizePair (a b : Osc) : Osc × Osc :=
  let b' := synchronize a b b
  let a' := synchronize b' a a
  (a', b')

/-- Phase before ring modulation: the top 12 bits of the accumulator
(`wave.h` line 232). -/
def phase0 (s : Osc) : Nat := s.accumulator >>> 12

/-- The table variant offset (`wave.h` line 234):  `3` if the pulse bit is
set and the pulse comparator output is high, `-1` otherwise. -/
def variantOf (s : Osc) : Int :=
  if 4 ≤ s.waveform ∧ (s.test = true ∨ s.pw ≤ phase0 s) then 3 else -1

/-- The ring-modulation condition of `wave.h` line 239. -/
def ringFlip (source_accumulator : Nat) (s : Osc) : Bool :=
  (s.waveform &&& 3 == 1) && s.ring_mod && (source_accumulator &&& 0x800000 != 0)

/-- The phase actually used for the table lookup (`wave.h` lines 239-242):
`phase0` with its top bit flipped when the ring-modulation condition holds. -/
def phaseUsed (source_accumulator : Nat) (s : Osc) : Nat :=
  if ringFlip source_accumulator s then phase0 s ^^^ 0x800 else phase0 s

/-- The first index of the `wftable` lookup (`wave.h` line 242):
`waveform + variant`. -/
def tableIndex (s : Osc) : Nat :=
  ((s.waveform : Int) + variantOf s).toNat

/-- `WaveformGeneratorFP::output` (`wave.h` lines 217-243). -/
def output (wftable : Nat → Nat → ℚ) (source_accumulator : Nat) (s : Osc) : ℚ :=
  if s.waveform = 0 then s.previous_dac
  else if s.waveform = 8 then s.noise_output_cached_dac
  else if 8 < s.waveform then s.wave_zero
  else wftable (tableIndex s) (phaseUsed source_accumulator s)

/-- A concrete all-zero DAC table, used to instantiate witnesses. -/
def dac0 : Nat → ℚ := fun _ => 0

/-- A concrete DAC table with distinct weights, used to instantiate
witnesses. -/
def dac1 : Nat → ℚ := fun i => (i : ℚ) + 1

/-- A concrete waveform table with a distinct value in every slot, used to
instantiate witnesses. -/
def wft1 : Nat → Nat → ℚ := fun i p => (i : ℚ) * 10000 + (p : ℚ)

/-- A concrete baseline oscillator state for witnesses. -/
def osc0 : Osc where
  msb_rising := false
  accumulator := 0
  shift_register := 0
  noise_output_cached := 0
  noise_overwrite_delay := 0
  freq := 0
  pw := 0
  waveform := 0
  test := false
  ring_mod := false
  sync := false
  wave_zero := -1
  previous_dac := 7
  noise_output_cached_dac := 3

section Scratch

example : outputN___ 0x400000 = 0x800 := by decide

example :
    ((0x400000 <<< 1) |||
      (((0x400000 >>> 22) ^^^ (0x400000 >>> 17)) &&& 0x1)) % 2 ^ 32 = 0x800001 := by
  decide

example : noiseClearMask = 0x2ed76b := by decide

end Scratch

/-! ## Bit-manipulation helper lemmas -/

theorem land_mask24 (x : Nat) : x &&& 0xffffff = x % 2 ^ 24 := by
  have h : (0xffffff : Nat) = 2 ^ 24 - 1 := by norm_num
  rw [h, Nat.and_pow_two_sub_one_eq_mod]

theorem land_two_pow_eq_zero_iff (x n : Nat) :
    x &&& 2 ^ n = 0 ↔ x.testBit n = false := by
  constructor
  · intro h
    have h2 := congrArg (fun y => y.testBit n) h
    simpa [Nat.testBit_two_pow_self] using h2
  · intro h
    apply Nat.eq_of_testBit_eq
    intro i
    rcases eq_or_ne n i with rfl | hne
    · simp [h]
    · simp [Nat.testBit_two_pow, hne]

theorem beq_land_two_pow (x n : Nat) : (x &&& 2 ^ n == 0) = !x.testBit n := by
  by_cases h : x &&& 2 ^ n = 0
  · have := (land_two_pow_eq_zero_iff x n).mp h
    simp [h, this]
  · have hb : x.testBit n = true := by
      rcases hc : x.testBit n with _ | _
      · exact absurd ((land_two_pow_eq_zero_iff x n).mpr hc) h
      · rfl
    simp [h, hb]

theorem bne_land_two_pow (x n : Nat) : (x &&& 2 ^ n != 0) = x.testBit n := by
  rw [bne, beq_land_two_pow, Bool.not_not]

theorem beq_land_msb (x : Nat) : (x &&& 0x800000 == 0) = !x.testBit 23 := by
  have h : (0x800000 : Nat) = 2 ^ 23 := by norm_num
  rw [h, beq_land_two_pow]

theorem bne_land_msb (x : Nat) : (x &&& 0x800000 != 0) = x.testBit 23 := by
  have h : (0x800000 : Nat) = 2 ^ 23 := by norm_num
  rw [h, bne_land_two_pow]

theorem beq_land_bit19 (x : Nat) : (x &&& 0x080000 == 0) = !x.testBit 19 := by
  have h : (0x080000 : Nat) = 2 ^ 19 := by norm_num
  rw [h, beq_land_two_pow]

theorem bne_land_bit19 (x : Nat) : (x &&& 0x080000 != 0) = x.testBit 19 := by
  have h : (0x080000 : Nat) = 2 ^ 19 := by norm_num
  rw [h, bne_land_two_pow]

/-! ## Field-preservation lemmas for `clock_noise` and `clock` -/

theorem clock_noise_accumulator (dac : Nat → ℚ) (clk : Bool) (s : Osc) :
    (clock_noise dac clk s).accumulator = s.accumulator := rfl

theorem clock_noise_msb_rising (dac : Nat → ℚ) (clk : Bool) (s : Osc) :
    (clock_noise dac clk s).msb_rising = s.msb_rising := rfl

theorem clock_noise_freq (dac : Nat → ℚ) (clk : Bool) (s : Osc) :
    (clock_noise dac clk s).freq = s.freq := rfl

theorem clock_noise_test (dac : Nat → ℚ) (clk : Bool) (s : Osc) :
    (clock_noise dac clk s).test = s.test := rfl

theorem clock_noise_waveform (dac : Nat → ℚ) (clk : Bool) (s : Osc) :
    (clock_noise dac clk s).waveform = s.waveform := rfl

theorem clock_noise_previous_dac (dac : Nat → ℚ) (clk : Bool) (s : Osc) :
    (clock_noise dac clk s).previous_dac = s.previous_dac := rfl

theorem clock_freq (dac : Nat → ℚ) (s : Osc) : (clock dac s).freq = s.freq := by
  simp only [clock]
  split
  · split
    · split <;> rfl
    · rfl
  · split
    · exact clock_noise_freq ..
    · rfl

theorem clock_test (dac : Nat → ℚ) (s : Osc) : (clock dac s).test = s.test := by
  simp only [clock]
  split
  · split
    · split <;> rfl
    · rfl
  · split
    · exact clock_noise_test ..
    · rfl

theorem clock_previous_dac (dac : Nat → ℚ) (s : Osc) :
    (clock dac s).previous_dac = s.previous_dac := by
  simp only [clock]
  split
  · split
    · split <;> rfl
    · rfl
  · split
    · exact clock_noise_previous_dac ..
    · rfl

theorem clock_waveform (dac : Nat → ℚ) (s : Osc) :
    (clock dac s).waveform = s.waveform := by
  simp only [clock]
  split
  · split
    · split <;> rfl
    · rfl
  · split
    · exact clock_noise_waveform ..
    · rfl

theorem clock_accumulator_of_test (dac : Nat → ℚ) (s : Osc) (h : s.test = true) :
    (clock dac s).accumulator = s.accumulator := by
  unfold clock
  rw [h]
  simp only [if_true]
  split
  · split <;> rfl
  · rfl

theorem clock_accumulator_of_not_test (dac : Nat → ℚ) (s : Osc)
    (h : s.test = false) :
    (clock dac s).accumulator = (s.accumulator + s.freq) % 2 ^ 24 := by
  unfold clock
  rw [h]
  simp only [Bool.false_eq_true, if_false]
  split
  · rw [clock_noise_accumulator]
    exact land_mask24 _
  · exact land_mask24 _

theorem clock_msb_of_not_test (dac : Nat → ℚ) (s : Osc) (h : s.test = false) :
    (clock dac s).msb_rising =
      (!s.accumulator.testBit 23 && ((s.accumulator + s.freq) % 2 ^ 24).testBit 23) := by
  unfold clock
  rw [h]
  simp only [Bool.false_eq_true, if_false]
  have e23 : (0x800000 : Nat) = 2 ^ 23 := by norm_num
  split
  · rw [clock_noise_msb_rising]
    simp only [e23, land_mask24, beq_land_two_pow, bne_land_two_pow]
  · simp only [e23, land_mask24, beq_land_two_pow, bne_land_two_pow]

theorem clock_shift_register_of_not_test (dac : Nat → ℚ) (s : Osc)
    (h : s.test = false) :
    (clock dac s).shift_register =
      (if s.accumulator.testBit 19 = false ∧
          ((s.accumulator + s.freq) % 2 ^ 24).testBit 19 = true
       then (clock_noise dac true s).shift_register
       else s.shift_register) := by
  have hsr : ∀ s' : Osc, s'.shift_register = s.shift_register →
      s'.waveform = s.waveform →
      (clock_noise dac true s').shift_register =
        (clock_noise dac true s).shift_register := by
    intro s' h1 h2
    simp only [clock_noise, h1, h2]
  simp only [clock, h, Bool.false_eq_true, if_false, beq_land_bit19,
    bne_land_bit19, land_mask24]
  split
  · rename_i hcond
    rw [Bool.and_eq_true, Bool.not_eq_true'] at hcond
    rw [if_pos hcond]
    exact hsr _ rfl rfl
  · rename_i hcond
    rw [Bool.and_eq_true, Bool.not_eq_true'] at hcond
    rw [if_neg hcond]

/-! ## Iterated clocking under the C1 scenario -/

theorem clockIter_succ (dac : Nat → ℚ) (n : Nat) (s : Osc) :
    clockIter dac (n + 1) s = clock dac (clockIter dac n s) := by
  unfold clockIter
  exact Function.iterate_succ_apply' ..

theorem clockIter_test (dac : Nat → ℚ) (n : Nat) (s : Osc) :
    (clockIter dac n s).test = s.test := by
  induction n with
  | zero => rfl
  | succ n ih => rw [clockIter_succ, clock_test, ih]

theorem clockIter_freq (dac : Nat → ℚ) (n : Nat) (s : Osc) :
    (clockIter dac n s).freq = s.freq := by
  induction n with
  | zero => rfl
  | succ n ih => rw [clockIter_succ, clock_freq, ih]

theorem clockIter_acc_scenario (dac : Nat → ℚ) (s0 : Osc)
    (hf : s0.freq = 4096) (ha : s0.accumulator = 0) (ht : s0.test = false) :
    ∀ n, (clockIter dac n s0).accumulator = 4096 * n % 2 ^ 24 := by
  intro n
  induction n with
  | zero => simpa [clockIter] using ha
  | succ n ih =>
    rw [clockIter_succ,
      clock_accumulator_of_not_test dac _ (by rw [clockIter_test, ht]),
      clockIter_freq, hf, ih]
    omega

/-- C1: a single `clock()` call freezes the accumulator when `test` is held;
otherwise it adds `freq` modulo `2 ^ 24`, sets `msb_rising` exactly on a
0→1 transition of accumulator bit 23, and advances the noise shift register
exactly on a 0→1 transition of accumulator bit 19.  With `freq = 4096` from
accumulator 0 and `test` false, 4096 calls return the accumulator to 0,
`msb_rising` is true after call 2048 and false after every earlier call. -/
theorem spec_C1 (dac : Nat → ℚ) (s s0 : Osc) (k : Nat)
    (hf : s0.freq = 4096) (ha : s0.accumulator = 0) (ht : s0.test = false) :
    (s.test = true → (clock dac s).accumulator = s.accumulator)
    ∧ (s.test = false →
        (clock dac s).accumulator = (s.accumulator + s.freq) % 2 ^ 24
        ∧ ((clock dac s).msb_rising = true ↔
            (s.accumulator.testBit 23 = false ∧
             ((s.accumulator + s.freq) % 2 ^ 24).testBit 23 = true))
        ∧ (clock dac s).shift_register =
            (if s.accumulator.testBit 19 = false ∧
                ((s.accumulator + s.freq) % 2 ^ 24).testBit 19 = true
             then (clock_noise dac true s).shift_register
             else s.shift_register))
    ∧ (clockIter dac 4096 s0).accumulator = 0
    ∧ (clockIter dac 2048 s0).msb_rising = true
    ∧ (1 ≤ k → k < 2048 → (clockIter dac k s0).msb_rising = false) := by
  refine ⟨clock_accumulator_of_test dac s, fun hs => ?_, ?_, ?_, ?_⟩
  · refine ⟨clock_accumulator_of_not_test dac s hs, ?_,
      clock_shift_register_of_not_test dac s hs⟩
    rw [clock_msb_of_not_test dac s hs]
    simp [Bool.and_eq_true, Bool.not_eq_true']
  · rw [clockIter_acc_scenario dac s0 hf ha ht 4096]
    norm_num
  · have h2048 : (2048 : Nat) = 2047 + 1 := rfl
    rw [h2048, clockIter_succ,
      clock_msb_of_not_test dac _ (by rw [clockIter_test, ht]),
      clockIter_freq, hf, clockIter_acc_scenario dac s0 hf ha ht 2047]
    decide
  · intro hk1 hk2
    rcases k with _ | n
    · omega
    rw [clockIter_succ,
      clock_msb_of_not_test dac _ (by rw [clockIter_test, ht]),
      clockIter_freq, hf, clockIter_acc_scenario dac s0 hf ha ht n]
    have h1 : (4096 * n % 2 ^ 24 + 4096) % 2 ^ 24 = 4096 * n + 4096 := by omega
    rw [h1, Nat.testBit_lt_two_pow (show 4096 * n + 4096 < 2 ^ 23 by omega),
      Bool.and_false]

/-- Witness for C1 at a concrete state: frequency 4096, accumulator 0,
`test` false, checked at cycle counts 4096, 2048 and 1000. -/
theorem spec_C1_witness :
    (clockIter dac0 4096 { osc0 with freq := 4096 }).accumulator = 0
    ∧ (clockIter dac0 2048 { osc0 with freq := 4096 }).msb_rising = true
    ∧ (clockIter dac0 1000 { osc0 with freq := 4096 }).msb_rising = false :=
  ⟨(spec_C1 dac0 osc0 { osc0 with freq := 4096 } 1000 rfl rfl rfl).2.2.1,
   (spec_C1 dac0 osc0 { osc0 with freq := 4096 } 1000 rfl rfl rfl).2.2.2.1,
   (spec_C1 dac0 osc0 { osc0 with freq := 4096 } 1000 rfl rfl rfl).2.2.2.2
     (by decide) (by decide)⟩


/-! ## C2: synchronize -/

theorem sync_cond_iff (self source dest : Osc) :
    (self.msb_rising && dest.sync && !(self.sync && source.msb_rising)) = true ↔
      (self.msb_rising = true ∧ dest.sync = true ∧
        ¬(self.sync = true ∧ source.msb_rising = true)) := by
  cases h1 : self.msb_rising <;> cases h2 : dest.sync <;>
    cases h3 : self.sync <;> cases h4 : source.msb_rising <;> simp

/-- C2: `synchronize` resets the destination accumulator to zero exactly when
the oscillator's `msb_rising` holds, the destination has `sync` enabled, and
not both the oscillator's own `sync` and its source's `msb_rising` hold; in
particular two mutually-synced oscillators with both flags set and both MSBs
rising leave both accumulators unchanged. -/
theorem spec_C2 (self source dest a b : Osc) (hd : dest.accumulator ≠ 0) :
    ((synchronize self source dest).accumulator = 0 ↔
      (self.msb_rising = true ∧ dest.sync = true ∧
        ¬(self.sync = true ∧ source.msb_rising = true)))
    ∧ (a.sync = true → b.sync = true → a.msb_rising = true →
        b.msb_rising = true → synchronizePair a b = (a, b)) := by
  constructor
  · rw [← sync_cond_iff]
    unfold synchronize
    split
    · rename_i hcond
      simp_all
    · rename_i hcond
      constructor
      · intro h0
        exact absurd h0 hd
      · intro hP
        exact absurd hP hcond
  · intro ha hb hma hmb
    simp [synchronizePair, synchronize, ha, hb, hma, hmb]

/-- Witness for C2: two mutually-synced oscillators, both with `sync` set and
both MSBs rising, are left unchanged by the synchronize pass. -/
theorem spec_C2_witness :
    synchronizePair { osc0 with sync := true, msb_rising := true, accumulator := 111 }
        { osc0 with sync := true, msb_rising := true, accumulator := 222 } =
      ({ osc0 with sync := true, msb_rising := true, accumulator := 111 },
       { osc0 with sync := true, msb_rising := true, accumulator := 222 }) :=
  (spec_C2 osc0 osc0 { osc0 with accumulator := 5 }
      { osc0 with sync := true, msb_rising := true, accumulator := 111 }
      { osc0 with sync := true, msb_rising := true, accumulator := 222 }
      (by decide)).2 rfl rfl rfl rfl

/-! ## C3: output for codes 0, 8 and 9-15 -/

/-- C3: `output()` returns `previous_dac` for waveform code 0 (and keeps
doing so across a `clock()` call), `noise_output_cached_dac` for code 8, and
`wave_zero` for every code 9 through 15. -/
theorem spec_C3 (wftable : Nat → Nat → ℚ) (dac : Nat → ℚ)
    (srcA srcB : Nat) (s : Osc) :
    (s.waveform = 0 →
      output wftable srcA s = s.previous_dac
      ∧ output wftable srcB (clock dac s) = output wftable srcA s)
    ∧ (s.waveform = 8 → output wftable srcA s = s.noise_output_cached_dac)
    ∧ (9 ≤ s.waveform → s.waveform ≤ 15 →
        output wftable srcA s = s.wave_zero) := by
  refine ⟨fun h0 => ⟨?_, ?_⟩, fun h8 => ?_, fun h9 h15 => ?_⟩
  · simp [output, h0]
  · have hw : (clock dac s).waveform = 0 := by rw [clock_waveform, h0]
    simp [output, h0, hw, clock_previous_dac]
  · simp [output, h8]
  · have hne0 : s.waveform ≠ 0 := by omega
    have hne8 : s.waveform ≠ 8 := by omega
    have hgt : 8 < s.waveform := by omega
    simp [output, hne0, hne8, hgt]

/-- Witness for C3 at waveform codes 0, 8 and 12. -/
theorem spec_C3_witness :
    (output wft1 0 { osc0 with waveform := 0 } =
      ({ osc0 with waveform := 0 } : Osc).previous_dac)
    ∧ (output wft1 0 { osc0 with waveform := 8 } =
      ({ osc0 with waveform := 8 } : Osc).noise_output_cached_dac)
    ∧ (output wft1 0 { osc0 with waveform := 12 } =
      ({ osc0 with waveform := 12 } : Osc).wave_zero) :=
  ⟨((spec_C3 wft1 dac0 0 0 { osc0 with waveform := 0 }).1 rfl).1,
   (spec_C3 wft1 dac0 0 0 { osc0 with waveform := 8 }).2.1 rfl,
   (spec_C3 wft1 dac0 0 0 { osc0 with waveform := 12 }).2.2 (by decide) (by decide)⟩

/-! ## C10: table lookup bounds for codes 1-7 -/

/-- C10: for waveform codes 1 through 7 and a 24-bit accumulator, the phase
is below 4096, the table index is `waveform - 1` or (only when the pulse bit
is set) `waveform + 3`, hence at most 10, and `output()` is exactly the
lookup at that index and phase. -/
theorem spec_C10 (wftable : Nat → Nat → ℚ) (src : Nat) (s : Osc)
    (h1 : 1 ≤ s.waveform) (h7 : s.waveform ≤ 7) (hacc : s.accumulator < 2 ^ 24) :
    phase0 s < 4096
    ∧ phaseUsed src s < 4096
    ∧ (tableIndex s = s.waveform - 1 ∨
        (4 ≤ s.waveform ∧ tableIndex s = s.waveform + 3))
    ∧ tableIndex s ≤ 10
    ∧ output wftable src s = wftable (tableIndex s) (phaseUsed src s) := by
  have hp : phase0 s < 4096 := by
    unfold phase0
    rw [Nat.shiftRight_eq_div_pow]
    have hacc' : s.accumulator < 16777216 := by norm_num at hacc; exact hacc
    omega
  have hpu : phaseUsed src s < 4096 := by
    unfold phaseUsed
    split
    · have h48 : (4096 : Nat) = 2 ^ 12 := by norm_num
      rw [h48] at hp ⊢
      exact Nat.xor_lt_two_pow hp (by norm_num)
    · exact hp
  have hti : (¬(4 ≤ s.waveform ∧ (s.test = true ∨ s.pw ≤ phase0 s)) →
        tableIndex s = s.waveform - 1)
      ∧ ((4 ≤ s.waveform ∧ (s.test = true ∨ s.pw ≤ phase0 s)) →
        tableIndex s = s.waveform + 3) := by
    unfold tableIndex variantOf
    constructor
    · intro h
      rw [if_neg h]
      omega
    · intro h
      rw [if_pos h]
      omega
  have hcases : tableIndex s = s.waveform - 1 ∨
      (4 ≤ s.waveform ∧ tableIndex s = s.waveform + 3) := by
    by_cases hc : 4 ≤ s.waveform ∧ (s.test = true ∨ s.pw ≤ phase0 s)
    · exact Or.inr ⟨hc.1, hti.2 hc⟩
    · exact Or.inl (hti.1 hc)
  refine ⟨hp, hpu, hcases, ?_, ?_⟩
  · rcases hcases with h | h <;> omega
  · have hne0 : ¬(s.waveform = 0) := by omega
    have hne8 : ¬(s.waveform = 8) := by omega
    have hngt : ¬(8 < s.waveform) := by omega
    simp [output, hne0, hne8, hngt]

/-- Witness for C10 at waveform code 5 with a concrete 24-bit accumulator. -/
theorem spec_C10_witness :
    phase0 { osc0 with waveform := 5, accumulator := 0x812345, pw := 100 } < 4096
    ∧ phaseUsed 0 { osc0 with waveform := 5, accumulator := 0x812345, pw := 100 } < 4096
    ∧ (tableIndex { osc0 with waveform := 5, accumulator := 0x812345, pw := 100 } =
        ({ osc0 with waveform := 5, accumulator := 0x812345, pw := 100 } : Osc).waveform - 1 ∨
       (4 ≤ ({ osc0 with waveform := 5, accumulator := 0x812345, pw := 100 } : Osc).waveform ∧
        tableIndex { osc0 with waveform := 5, accumulator := 0x812345, pw := 100 } =
          ({ osc0 with waveform := 5, accumulator := 0x812345, pw := 100 } : Osc).waveform + 3))
    ∧ tableIndex { osc0 with waveform := 5, accumulator := 0x812345, pw := 100 } ≤ 10
    ∧ output wft1 0 { osc0 with waveform := 5, accumulator := 0x812345, pw := 100 } =
        wft1 (tableIndex { osc0 with waveform := 5, accumulator := 0x812345, pw := 100 })
          (phaseUsed 0 { osc0 with waveform := 5, accumulator := 0x812345, pw := 100 }) :=
  spec_C10 wft1 0 { osc0 with waveform := 5, accumulator := 0x812345, pw := 100 }
    (by decide) (by decide) (by decide)

/-! ## C4: pulse variant selection (corrected) -/

/-- C4 as stated is false: with `pw = 2048`, `test` false and phase 2048
(so `phase ≥ pw` holds) on pulse code 4, the code selects table index 7,
not an index in 3..6 as the claim requires. -/
theorem spec_C4_counterexample :
    ({ osc0 with waveform := 4, pw := 2048, accumulator := 2048 * 4096 } : Osc).test = false
    ∧ ({ osc0 with waveform := 4, pw := 2048, accumulator := 2048 * 4096 } : Osc).pw ≤
        phase0 { osc0 with waveform := 4, pw := 2048, accumulator := 2048 * 4096 }
    ∧ tableIndex { osc0 with waveform := 4, pw := 2048, accumulator := 2048 * 4096 } = 7
    ∧ ¬(3 ≤ tableIndex { osc0 with waveform := 4, pw := 2048, accumulator := 2048 * 4096 }
        ∧ tableIndex { osc0 with waveform := 4, pw := 2048, accumulator := 2048 * 4096 } ≤ 6) := by
  decide

/-- C4 (amended): for pulse codes 4-7, `output()` selects the table variant
at indices 7 through 10 (the pulse-gated-high entries of the §4.5 order)
exactly when `test` is held or phase ≥ `pw`, and the variant at indices
3 through 6 (pulse-gated-low) otherwise; with `pw = 2048` and `test` false
the variant switches between phase 2047 and phase 2048. -/
theorem spec_C4_amended (wftable : Nat → Nat → ℚ) (src : Nat) (s : Osc)
    (h4 : 4 ≤ s.waveform) (h7 : s.waveform ≤ 7) :
    ((s.test = true ∨ s.pw ≤ phase0 s) →
      tableIndex s = s.waveform + 3 ∧ 7 ≤ tableIndex s ∧ tableIndex s ≤ 10)
    ∧ (s.test = false → phase0 s < s.pw →
      tableIndex s = s.waveform - 1 ∧ 3 ≤ tableIndex s ∧ tableIndex s ≤ 6)
    ∧ output wftable src s = wftable (tableIndex s) (phaseUsed src s)
    ∧ (s.pw = 2048 → s.test = false →
        (phase0 s = 2047 → tableIndex s = s.waveform - 1)
        ∧ (phase0 s = 2048 → tableIndex s = s.waveform + 3)) := by
  have hpos : ∀ h : 4 ≤ s.waveform ∧ (s.test = true ∨ s.pw ≤ phase0 s),
      tableIndex s = s.waveform + 3 := by
    intro h
    unfold tableIndex variantOf
    rw [if_pos h]
    omega
  have hneg : ∀ _ : ¬(4 ≤ s.waveform ∧ (s.test = true ∨ s.pw ≤ phase0 s)),
      tableIndex s = s.waveform - 1 := by
    intro h
    unfold tableIndex variantOf
    rw [if_neg h]
    omega
  refine ⟨fun hc => ?_, fun ht hlt => ?_, ?_, fun hpw ht => ⟨fun hph => ?_, fun hph => ?_⟩⟩
  · have he := hpos ⟨h4, hc⟩
    omega
  · have hnc : ¬(4 ≤ s.waveform ∧ (s.test = true ∨ s.pw ≤ phase0 s)) := by
      rintro ⟨-, hc | hc⟩
      · rw [ht] at hc
        exact Bool.false_ne_true hc
      · omega
    have he := hneg hnc
    omega
  · have hne0 : ¬(s.waveform = 0) := by omega
    have hne8 : ¬(s.waveform = 8) := by omega
    have hngt : ¬(8 < s.waveform) := by omega
    simp [output, hne0, hne8, hngt]
  · apply hneg
    rintro ⟨-, hc | hc⟩
    · rw [ht] at hc
      exact Bool.false_ne_true hc
    · omega
  · exact hpos ⟨h4, Or.inr (by omega)⟩

/-- Witness for C4 (amended): pulse code 6 with `pw = 2048` selects index 5
at phase 2047 and index 9 at phase 2048. -/
theorem spec_C4_amended_witness :
    tableIndex { osc0 with waveform := 6, pw := 2048, accumulator := 2047 * 4096 } = 5
    ∧ tableIndex { osc0 with waveform := 6, pw := 2048, accumulator := 2048 * 4096 } = 9 := by
  constructor
  · have h := ((spec_C4_amended wft1 0
      { osc0 with waveform := 6, pw := 2048, accumulator := 2047 * 4096 }
      (by decide) (by decide)).2.2.2 rfl rfl).1 (by decide)
    simpa using h
  · have h := ((spec_C4_amended wft1 0
      { osc0 with waveform := 6, pw := 2048, accumulator := 2048 * 4096 }
      (by decide) (by decide)).2.2.2 rfl rfl).2 (by decide)
    simpa using h

/-! ## C5: ring modulation condition (corrected) -/

/-- C5 as stated is false: waveform code 3 has the triangle bit set, yet
with `ring_mod` enabled and the sync source's accumulator MSB set the code
does not flip the top phase bit, because the condition is
`(waveform & 3) == 1`, not merely the triangle bit. -/
theorem spec_C5_counterexample :
    ({ osc0 with waveform := 3, ring_mod := true } : Osc).waveform.testBit 0 = true
    ∧ ({ osc0 with waveform := 3, ring_mod := true } : Osc).ring_mod = true
    ∧ (0x800000 : Nat).testBit 23 = true
    ∧ phaseUsed 0x800000 { osc0 with waveform := 3, ring_mod := true } =
        phase0 { osc0 with waveform := 3, ring_mod := true }
    ∧ phase0 { osc0 with waveform := 3, ring_mod := true } ^^^ 0x800 ≠
        phase0 { osc0 with waveform := 3, ring_mod := true } := by
  decide

/-- C5 (amended): for waveform codes 1-7, the top bit of the 12-bit phase is
flipped before lookup exactly when the code is 1 or 5 (triangle bit set and
sawtooth bit clear), `ring_mod` is enabled, and the sync source's
accumulator has bit 23 set; under no other condition is the phase changed. -/
theorem spec_C5_amended (src : Nat) (s : Osc)
    (h1 : 1 ≤ s.waveform) (h7 : s.waveform ≤ 7) :
    (phaseUsed src s =
      (if (s.waveform = 1 ∨ s.waveform = 5) ∧ s.ring_mod = true ∧
          src.testBit 23 = true
       then phase0 s ^^^ 0x800 else phase0 s))
    ∧ (phaseUsed src s ≠ phase0 s ↔
        ((s.waveform = 1 ∨ s.waveform = 5) ∧ s.ring_mod = true ∧
          src.testBit 23 = true)) := by
  have hw : ((s.waveform &&& 3 == 1) = true) ↔
      (s.waveform = 1 ∨ s.waveform = 5) := by
    set w := s.waveform with hww
    interval_cases w <;> decide
  have hcond : (ringFlip src s = true) ↔
      ((s.waveform = 1 ∨ s.waveform = 5) ∧ s.ring_mod = true ∧
        src.testBit 23 = true) := by
    unfold ringFlip
    rw [bne_land_msb]
    simp only [Bool.and_eq_true, and_assoc, hw]
  have hx : phase0 s ^^^ 0x800 ≠ phase0 s := by
    intro heq
    have h2 : phase0 s ^^^ (phase0 s ^^^ 0x800) = phase0 s ^^^ phase0 s := by
      rw [heq]
    rw [← Nat.xor_assoc, Nat.xor_self, Nat.zero_xor] at h2
    exact absurd h2 (by norm_num)
  constructor
  · unfold phaseUsed
    split
    · rename_i h
      rw [if_pos (hcond.mp h)]
    · rename_i h
      rw [if_neg]
      intro hc
      exact h (hcond.mpr hc)
  · constructor
    · intro hne
      by_contra hc
      apply hne
      unfold phaseUsed
      rw [if_neg]
      intro hr
      exact hc (hcond.mp hr)
    · intro hc
      unfold phaseUsed
      rw [if_pos (hcond.mpr hc)]
      exact hx

/-- Witness for C5 (amended): waveform code 5 with `ring_mod` on and source
MSB set does change the phase. -/
theorem spec_C5_amended_witness :
    phaseUsed 0x800000 { osc0 with waveform := 5, ring_mod := true, accumulator := 4096 } ≠
      phase0 { osc0 with waveform := 5, ring_mod := true, accumulator := 4096 } :=
  (spec_C5_amended 0x800000
    { osc0 with waveform := 5, ring_mod := true, accumulator := 4096 }
    (by decide) (by decide)).2.mpr ⟨Or.inr rfl, rfl, by decide⟩

/-! ## C6: noise shift register width (corrected) -/

theorem testBit_one_succ (i : Nat) : (1 : Nat).testBit (i + 1) = false := by
  rw [Nat.testBit_add_one]
  simp

theorem shiftLeft_one_testBit_succ (x i : Nat) :
    (x <<< 1).testBit (i + 1) = x.testBit i := by
  rw [Nat.testBit_add_one, Nat.shiftLeft_eq]
  norm_num

theorem shiftLeft_one_testBit_zero (x : Nat) : (x <<< 1).testBit 0 = false := by
  simp [Nat.testBit_zero, Nat.shiftLeft_eq, pow_one, Nat.mul_mod_left]

/-- C6 as stated is false: the shift of `clock_noise` is not reduced modulo
`2 ^ 23`.  From register value `0x400000` (below `2 ^ 23`) with a waveform
code that selects no mask, one step yields `0x800001`, which is not below
`2 ^ 23`. -/
theorem spec_C6_counterexample :
    ({ osc0 with shift_register := 0x400000 } : Osc).shift_register < 2 ^ 23
    ∧ ({ osc0 with shift_register := 0x400000 } : Osc).waveform ≤ 8
    ∧ (clock_noise dac0 true { osc0 with shift_register := 0x400000 }).shift_register
        = 0x800001
    ∧ ¬((clock_noise dac0 true
          { osc0 with shift_register := 0x400000 }).shift_register < 2 ^ 23) := by
  decide

/-- C6 (amended): the register is not masked back to 23 bits, but the step
is the claimed LFSR step on the low 23 bits: bit 0 of the new value is the
XOR of old bits 22 and 17, bit `i + 1` is old bit `i` for `i < 22` — and the
old bit 22 survives into bit 23, so the raw register may reach `2 ^ 23` or
more (as the counterexample shows). -/
theorem spec_C6_amended (dac : Nat → ℚ) (s : Osc) (hw : s.waveform ≤ 8) :
    ((clock_noise dac true s).shift_register.testBit 0 =
      ((s.shift_register.testBit 22).xor (s.shift_register.testBit 17)))
    ∧ (∀ i, i < 22 →
        (clock_noise dac true s).shift_register.testBit (i + 1) =
          s.shift_register.testBit i)
    ∧ ((clock_noise dac true s).shift_register.testBit 23 =
        s.shift_register.testBit 22) := by
  have hw' : ¬(8 < s.waveform) := by omega
  have hsr : (clock_noise dac true s).shift_register =
      ((s.shift_register <<< 1) |||
        (((s.shift_register >>> 22) ^^^ (s.shift_register >>> 17)) &&& 0x1)) % 2 ^ 32 := by
    simp [clock_noise, hw']
  refine ⟨?_, ?_, ?_⟩
  · rw [hsr, Nat.testBit_mod_two_pow,
      decide_eq_true (show (0 : Nat) < 32 by omega), Bool.true_and,
      Nat.testBit_or, shiftLeft_one_testBit_zero, Bool.false_or,
      Nat.testBit_and, Nat.testBit_one_zero, Bool.and_true,
      Nat.testBit_xor, Nat.testBit_shiftRight, Nat.testBit_shiftRight,
      Nat.add_zero, Nat.add_zero]
  · intro i hi
    rw [hsr, Nat.testBit_mod_two_pow,
      decide_eq_true (show i + 1 < 32 by omega), Bool.true_and,
      Nat.testBit_or, shiftLeft_one_testBit_succ,
      Nat.testBit_and, testBit_one_succ, Bool.and_false, Bool.or_false]
  · rw [hsr, show (23 : Nat) = 22 + 1 by omega, Nat.testBit_mod_two_pow,
      decide_eq_true (show 22 + 1 < 32 by omega), Bool.true_and,
      Nat.testBit_or, shiftLeft_one_testBit_succ,
      Nat.testBit_and, testBit_one_succ, Bool.and_false, Bool.or_false]

/-- Witness for C6 (amended) at register value 5 and bit index 3. -/
theorem spec_C6_amended_witness :
    ((clock_noise dac0 true { osc0 with shift_register := 5 }).shift_register.testBit 0 =
      ((((5 : Nat)).testBit 22).xor ((5 : Nat).testBit 17)))
    ∧ (clock_noise dac0 true { osc0 with shift_register := 5 }).shift_register.testBit 4 =
        (5 : Nat).testBit 3 :=
  ⟨(spec_C6_amended dac0 { osc0 with shift_register := 5 } (by decide)).1,
   (spec_C6_amended dac0 { osc0 with shift_register := 5 } (by decide)).2.1 3 (by decide)⟩

/-! ## C7: noise output word extraction and DAC reconstruction -/

theorem outputN_lt (sr : Nat) : outputN___ sr < 2 ^ 12 := by
  unfold outputN___
  have hsr : ∀ c k : Nat, (sr &&& c) >>> k ≤ c >>> k := by
    intro c k
    rw [Nat.shiftRight_eq_div_pow, Nat.shiftRight_eq_div_pow]
    exact Nat.div_le_div_right Nat.and_le_right
  have hsl : ∀ c k : Nat, (sr &&& c) <<< k ≤ c <<< k := by
    intro c k
    rw [Nat.shiftLeft_eq, Nat.shiftLeft_eq]
    exact Nat.mul_le_mul_right _ Nat.and_le_right
  repeat' apply Nat.or_lt_two_pow
  all_goals first
    | exact lt_of_le_of_lt (hsr _ _) (by decide)
    | exact lt_of_le_of_lt (hsl _ _) (by decide)

theorem dacLoop_eq (dac : Nat → ℚ) (w : Nat) (z : ℚ) :
    dacLoop dac w z =
      z + ∑ i in Finset.range 12, (if w.testBit i then dac i else 0) := by
  have hbit : ∀ n : Nat, (w &&& 1 <<< n ≠ 0) ↔ w.testBit n = true := by
    intro n
    rw [Nat.one_shiftLeft]
    constructor
    · intro h
      rcases hc : w.testBit n with _ | _
      · exact absurd ((land_two_pow_eq_zero_iff w n).mpr hc) h
      · rfl
    · intro h hz
      rw [(land_two_pow_eq_zero_iff w n).mp hz] at h
      exact Bool.false_ne_true h
  have hgen : ∀ (n : Nat) (z : ℚ),
      (List.range n).foldl
        (fun acc i => if w &&& (1 <<< i) ≠ 0 then acc + dac i else acc) z
        = z + ∑ i in Finset.range n, (if w.testBit i then dac i else 0) := by
    intro n
    induction n with
    | zero =>
      intro z
      simp
    | succ n ih =>
      intro z
      rw [List.range_succ, List.foldl_append, ih, Finset.sum_range_succ]
      simp only [List.foldl_cons, List.foldl_nil]
      by_cases hc : w.testBit n = true
      · rw [if_pos ((hbit n).mpr hc), if_pos hc]
        ring
      · rw [if_neg (fun h => hc ((hbit n).mp h)), if_neg hc]
        ring
  exact hgen 12 z

/-- C7: after any `clock_noise` invocation the cached 12-bit noise word is
`outputN___` of the new register, `outputN___` maps register bits
22, 20, 16, 13, 11, 7, 4, 2 to word bits 11 down to 4 with the low four
word bits zero (and the word below `2 ^ 12`), and the cached analog sample
is `wave_zero` plus the sum of `dac i` over the set bits of the word. -/
theorem spec_C7 (dac : Nat → ℚ) (clk : Bool) (s : Osc) :
    ((clock_noise dac clk s).noise_output_cached =
      outputN___ (clock_noise dac clk s).shift_register)
    ∧ (∀ sr : Nat,
        (outputN___ sr).testBit 11 = sr.testBit 22
        ∧ (outputN___ sr).testBit 10 = sr.testBit 20
        ∧ (outputN___ sr).testBit 9 = sr.testBit 16
        ∧ (outputN___ sr).testBit 8 = sr.testBit 13
        ∧ (outputN___ sr).testBit 7 = sr.testBit 11
        ∧ (outputN___ sr).testBit 6 = sr.testBit 7
        ∧ (outputN___ sr).testBit 5 = sr.testBit 4
        ∧ (outputN___ sr).testBit 4 = sr.testBit 2
        ∧ (outputN___ sr).testBit 3 = false
        ∧ (outputN___ sr).testBit 2 = false
        ∧ (outputN___ sr).testBit 1 = false
        ∧ (outputN___ sr).testBit 0 = false
        ∧ outputN___ sr < 2 ^ 12)
    ∧ (clock_noise dac clk s).noise_output_cached_dac =
        s.wave_zero + ∑ i in Finset.range 12,
          (if ((clock_noise dac clk s).noise_output_cached).testBit i then dac i
           else 0) := by
  refine ⟨rfl, fun sr => ?_, dacLoop_eq dac _ _⟩
  refine ⟨?_, ?_, ?_, ?_, ?_, ?_, ?_, ?_, ?_, ?_, ?_, ?_, outputN_lt sr⟩ <;>
    · simp only [outputN___, Nat.testBit_or, Nat.testBit_shiftRight,
        Nat.testBit_shiftLeft, Nat.testBit_and]
      norm_num
      rw [Bool.eq_iff_iff]
      simp only [Bool.or_eq_true, Bool.and_eq_true, decide_eq_true_eq,
        Nat.testBit_to_div_mod]
      norm_num

/-! ## C8: forced bit clears when noise is combined with other waveforms -/

/-- C8: when the waveform code exceeds 8, every `clock_noise` invocation
ANDs the (possibly shifted) register with `noiseClearMask`; among the 23
register bit positions this clears exactly the noise output taps
22, 20, 16, 13, 11, 7, 4, 2 and preserves every other position, and the
12-bit noise word recomputed immediately afterwards is zero. -/
theorem spec_C8 (dac : Nat → ℚ) (clk : Bool) (s : Osc) (hw : 8 < s.waveform) :
    ((clock_noise dac clk s).shift_register =
      (if clk then
        ((s.shift_register <<< 1) |||
          (((s.shift_register >>> 22) ^^^ (s.shift_register >>> 17)) &&& 0x1)) % 2 ^ 32
       else s.shift_register) &&& noiseClearMask)
    ∧ (∀ i, i ∈ [22, 20, 16, 13, 11, 7, 4, 2] →
        (clock_noise dac clk s).shift_register.testBit i = false)
    ∧ (∀ x : Nat, ∀ i, i < 23 → ¬(i ∈ [22, 20, 16, 13, 11, 7, 4, 2]) →
        (x &&& noiseClearMask).testBit i = x.testBit i)
    ∧ (clock_noise dac clk s).noise_output_cached = 0 := by
  have hmain : (clock_noise dac clk s).shift_register =
      (if clk then
        ((s.shift_register <<< 1) |||
          (((s.shift_register >>> 22) ^^^ (s.shift_register >>> 17)) &&& 0x1)) % 2 ^ 32
       else s.shift_register) &&& noiseClearMask := by
    simp [clock_noise, hw]
  have houtN : ∀ y : Nat, outputN___ (y &&& noiseClearMask) = 0 := by
    intro y
    unfold outputN___
    simp [Nat.and_assoc,
      show noiseClearMask &&& 0x400000 = 0 from by decide,
      show noiseClearMask &&& 0x100000 = 0 from by decide,
      show noiseClearMask &&& 0x010000 = 0 from by decide,
      show noiseClearMask &&& 0x002000 = 0 from by decide,
      show noiseClearMask &&& 0x000800 = 0 from by decide,
      show noiseClearMask &&& 0x000080 = 0 from by decide,
      show noiseClearMask &&& 0x000010 = 0 from by decide,
      show noiseClearMask &&& 0x000004 = 0 from by decide]
  refine ⟨hmain, ?_, ?_, ?_⟩
  · intro i hi
    rw [hmain, Nat.testBit_and]
    fin_cases hi <;> simp [noiseClearMask, Nat.testBit_to_div_mod]
  · intro x i h23 hni
    interval_cases i <;>
      first
        | exact absurd (by decide) hni
        | (rw [Nat.testBit_and]; simp [noiseClearMask, Nat.testBit_to_div_mod])
  · have hcached : (clock_noise dac clk s).noise_output_cached =
        outputN___ ((clock_noise dac clk s).shift_register) := rfl
    rw [hcached, hmain]
    exact houtN _

/-- Witness for C8 at waveform code 9 with an all-ones 23-bit register. -/
theorem spec_C8_witness :
    (clock_noise dac1 true
      { osc0 with waveform := 9, shift_register := 0x7fffff }).noise_output_cached = 0
    ∧ (clock_noise dac1 true
        { osc0 with waveform := 9, shift_register := 0x7fffff }).shift_register.testBit 22
        = false :=
  ⟨(spec_C8 dac1 true { osc0 with waveform := 9, shift_register := 0x7fffff }
      (by decide)).2.2.2,
   (spec_C8 dac1 true { osc0 with waveform := 9, shift_register := 0x7fffff }
      (by decide)).2.1 22 (by decide)⟩

/-! ## C9: test-held noise register recovery -/

theorem clockIter_succ_head (dac : Nat → ℚ) (n : Nat) (s : Osc) :
    clockIter dac (n + 1) s = clockIter dac n (clock dac s) := by
  unfold clockIter
  exact Function.iterate_succ_apply ..

theorem or_7ffffc_ne_zero (x : Nat) : x ||| 0x7ffffc ≠ 0 := by
  intro h
  have h2 := congrArg (fun y => y.testBit 2) h
  simp only [Nat.testBit_or, Nat.zero_testBit] at h2
  rw [show (0x7ffffc : Nat).testBit 2 = true from by decide] at h2
  simp at h2

/-- C9: with `test` held and the overwrite countdown at `d ≥ 1`, the `d`-th
`clock()` call ORs `0x7ffffc` into the shift register, so immediately after
the countdown expires the register is nonzero (for any prior register value,
including zero) and the countdown is zero. -/
theorem spec_C9 (dac : Nat → ℚ) (d : Nat) :
    ∀ s : Osc, s.test = true → s.noise_overwrite_delay = (d : Int) → 1 ≤ d →
      (clockIter dac d s).shift_register = s.shift_register ||| 0x7ffffc
      ∧ (clockIter dac d s).shift_register ≠ 0
      ∧ (clockIter dac d s).noise_overwrite_delay = 0 := by
  induction d with
  | zero =>
    intro s ht hd hd1
    omega
  | succ n ih =>
    intro s ht hd hd1
    rcases Nat.eq_zero_or_pos n with hn | hn
    · subst hn
      have h1 : clockIter dac 1 s = clock dac s := by
        unfold clockIter
        rw [Function.iterate_one]
      have hdelay : s.noise_overwrite_delay = 1 := by
        rw [hd]
        norm_num
      have hstep : clock dac s =
          { s with noise_overwrite_delay := 0,
                   shift_register := s.shift_register ||| 0x7ffffc,
                   noise_output_cached := outputN___ (s.shift_register ||| 0x7ffffc),
                   noise_output_cached_dac :=
                     dacLoop dac (outputN___ (s.shift_register ||| 0x7ffffc))
                       s.wave_zero } := by
        simp [clock, ht, hdelay]
      rw [h1, hstep]
      exact ⟨rfl, or_7ffffc_ne_zero _, rfl⟩
    · have hne : s.noise_overwrite_delay ≠ 0 := by
        rw [hd]
        omega
      have hne2 : ¬(s.noise_overwrite_delay - 1 = 0) := by
        rw [hd]
        omega
      have hstep : clock dac s =
          { s with noise_overwrite_delay := s.noise_overwrite_delay - 1 } := by
        simp [clock, ht, hne, hne2]
      have ihd : ({ s with noise_overwrite_delay := s.noise_overwrite_delay - 1 } :
          Osc).noise_overwrite_delay = (n : Int) := by
        show s.noise_overwrite_delay - 1 = (n : Int)
        rw [hd]
        omega
      have ih' := ih { s with noise_overwrite_delay := s.noise_overwrite_delay - 1 }
        ht ihd hn
      rw [clockIter_succ_head, hstep]
      exact ih'

/-- Witness for C9: from a zero register with `test` held and countdown 3,
after 3 clocks the register is `0x7ffffc` and the countdown has expired. -/
theorem spec_C9_witness :
    (clockIter dac0 3
        { osc0 with test := true, noise_overwrite_delay := 3 }).shift_register =
      ({ osc0 with test := true, noise_overwrite_delay := 3 } : Osc).shift_register
        ||| 0x7ffffc
    ∧ (clockIter dac0 3
        { osc0 with test := true, noise_overwrite_delay := 3 }).shift_register ≠ 0
    ∧ (clockIter dac0 3
        { osc0 with test := true, noise_overwrite_delay := 3 }).noise_overwrite_delay
        = 0 :=
  spec_C9 dac0 3 { osc0 with test := true, noise_overwrite_delay := 3 }
    rfl rfl (by decide)
